import Mathlib

/-!
Verification of the tender-document compliance pipeline.

The Python sources under scripts/ and app.py are shallowly embedded here.
Strings are modelled as lists of Unicode code points (`List Nat`); every
Python string primitive the sources use (strip, lower, upper, split,
substring test, startswith, lstrip, replace) is given an executable
Lean counterpart with the same semantics on those code points.  The
inference backend (ollama.chat) is abstracted as an explicit argument:
a function giving the response text of the backend for the prompt data
of one call, so that each pipeline function becomes a pure function of
its inputs and the captured backend responses.
-/

set_option maxRecDepth 100000

namespace Tender

/-- Strings are lists of Unicode code points. -/
abbrev Str := List Nat

/-- Conversion from a Lean string literal to the code point model. -/
def str (s : String) : Str := s.toList.map Char.toNat

/-- Whitespace code points stripped by Python str.strip: space, tab,
newline, carriage return, vertical tab, form feed. -/
def isSpace (n : Nat) : Bool :=
  n == 32 || n == 9 || n == 10 || n == 13 || n == 11 || n == 12

/-- ASCII lower-casing of one code point, as Python str.lower acts on
the characters appearing in the sources. -/
def toLowerN (n : Nat) : Nat := if 65 ≤ n ∧ n ≤ 90 then n + 32 else n

/-- ASCII upper-casing of one code point, as Python str.upper acts on
the characters appearing in the sources. -/
def toUpperN (n : Nat) : Nat := if 97 ≤ n ∧ n ≤ 122 then n - 32 else n

/-- Python str.lower. -/
def lower (s : Str) : Str := s.map toLowerN

/-- Python str.upper. -/
def upper (s : Str) : Str := s.map toUpperN

/-- Python str.strip: drop leading and trailing whitespace. -/
def strip (s : Str) : Str :=
  ((s.dropWhile isSpace).reverse.dropWhile isSpace).reverse

/-- Python str.startswith, and the prefix test used by substring search. -/
def beginsWith : Str → Str → Bool
  | [], _ => true
  | _ :: _, [] => false
  | a :: as, b :: bs => a == b && beginsWith as bs

/-- Python substring containment, the operator `p in s`. -/
def containsStr (p : Str) : Str → Bool
  | [] => beginsWith p []
  | x :: t => beginsWith p (x :: t) || containsStr p t

/-- Python str.split on a single separator character (full split). -/
def splitOnChar (c : Nat) : Str → List Str
  | [] => [[]]
  | x :: t =>
    if x == c then [] :: splitOnChar c t
    else
      match splitOnChar c t with
      | [] => [[x]]
      | h :: r => (x :: h) :: r

/-- Python str.split of a text into lines, text.split with newline. -/
def splitLines (s : Str) : List Str := splitOnChar 10 s

/-- Python sep.join of a list of strings. -/
def joinWith (sep : Str) : List Str → Str
  | [] => []
  | [x] => x
  | x :: y :: rest => x ++ sep ++ joinWith sep (y :: rest)

/-- Python str.replace for a single-character pattern: every occurrence
of the code point c is replaced by rep. -/
def replaceChar (c : Nat) (rep : Str) : Str → Str
  | [] => []
  | x :: t => (if x = c then rep else [x]) ++ replaceChar c rep t

/-- The text before the first occurrence of sep (the whole string when
sep does not occur): piece zero of a Python str.split on sep. -/
def takeBefore (sep : Str) : Str → Str
  | [] => []
  | c :: t => if beginsWith sep (c :: t) then [] else c :: takeBefore sep t

/-- The text after the first occurrence of sep (empty when sep does not
occur): what remains for the later pieces of a Python str.split. -/
def dropNext (sep : Str) : Str → Str
  | [] => []
  | c :: t => if beginsWith sep (c :: t) then (c :: t).drop sep.length else dropNext sep t

/-! ## scripts/extract_text.py -/

/-- Embedding of extract_text (scripts/extract_text.py lines 10-34).
The pdfplumber page list is modelled as a list of optional per-page
text layers (page.extract_text can return None, replaced by the empty
string), and the OCR backend as the list of per-page pytesseract
results.  The function concatenates the text layers; if the stripped
concatenation is non-empty it returns it at once, otherwise it keeps
appending the OCR page texts and returns the total. -/
def extract_text (pages : List (Option Str)) (ocr_pages : List Str) : Str :=
  let text := pages.foldl (fun acc p => acc ++ p.getD []) []
  if strip text ≠ [] then text
  else ocr_pages.foldl (fun acc s => acc ++ s) text

/-! ## scripts/extract_requirements.py -/

/-- The per-line qualification test of extract_requirements_only
(line 72 of scripts/extract_requirements.py): the stripped line is
non-empty and starts with a hyphen or a bullet or contains a colon. -/
def qualifiesLine (line : Str) : Bool :=
  !line.isEmpty &&
    (beginsWith (str "-") line || beginsWith (str "•") line ||
      containsStr (str ":") line)

/-- The clean-up of one qualifying line (line 74): Python
lstrip with the character set hyphen, space, bullet, then strip. -/
def cleanBullet (line : Str) : Str :=
  strip (line.dropWhile (fun n => n == 45 || n == 32 || n == 8226))

/-- The parsing loop of extract_requirements_only over the split lines
(lines 67-76 of scripts/extract_requirements.py). -/
def reqLines : List Str → List Str
  | [] => []
  | l :: rest =>
    if qualifiesLine (strip l) then
      if !(cleanBullet (strip l)).isEmpty then cleanBullet (strip l) :: reqLines rest
      else reqLines rest
    else reqLines rest

/-- Embedding of extract_requirements_only (scripts/extract_requirements.py
lines 10-80).  The ollama call is abstracted away: the argument is the
response content string that the code splits into lines and parses. -/
def extract_requirements_only (requirements_text : Str) : List Str :=
  reqLines (splitLines requirements_text)

/-- Embedding of evaluate_compliance (scripts/extract_requirements.py
lines 84-127).  The argument is the backend response content for the
compliance prompt; the function standardizes it to the verdict string. -/
def evaluate_compliance (content : Str) : Str :=
  let result := strip content
  if containsStr (str "complied") (lower result) &&
      !containsStr (str "not") (lower result)
  then str "Complied" else str "Not Complied"

/-- The escaping chain of generate_compliance_comparison (line 149 of
scripts/extract_requirements.py): replace ampersand, percent, underscore
and hash, in that order, by their backslash-escaped forms.  The dollar
character is not replaced by this renderer. -/
def escapeLatex4 (s : Str) : Str :=
  replaceChar 35 (str "\\#")
    (replaceChar 95 (str "\\_")
      (replaceChar 37 (str "\\%")
        (replaceChar 38 (str "\\&") s)))

/-- One data row of generate_compliance_comparison (line 151): the
escaped requirement and the three verdicts, joined by ampersand
separators, ending in a double backslash. -/
def latexRow (req f1c f2c f3c : Str) : Str :=
  escapeLatex4 req ++ str " & " ++ f1c ++ str " & " ++ f2c ++ str " & " ++
    f3c ++ str " \\\\"

/-- Embedding of generate_compliance_comparison
(scripts/extract_requirements.py lines 130-154).  The backend is
abstracted by respond: the captured response content of the
ollama call for one (requirement, firm text) pair; the loop reduces
each response with evaluate_compliance and joins the rows by
newlines. -/
def generate_compliance_comparison (respond : Str → Str → Str)
    (requirements : List Str) (firm1_text firm2_text firm3_text : Str) : Str :=
  joinWith (str "\n")
    (requirements.map (fun req =>
      latexRow req
        (evaluate_compliance (respond req firm1_text))
        (evaluate_compliance (respond req firm2_text))
        (evaluate_compliance (respond req firm3_text))))

/-- The fixed template text of create_compliance_table_latex before the
data rows (scripts/extract_requirements.py lines 164-210), without its
final newline; braces are written as \x7b and \x7d.  Line 26 of the
template carries two trailing spaces, written as \x20\x20. -/
def latexPrefixCore : Str := str "
\\documentclass[12pt]\x7barticle\x7d
\\usepackage\x7blongtable\x7d
\\usepackage\x7barray\x7d
\\usepackage[table]\x7bxcolor\x7d
\\usepackage[a4paper, margin=0.8in]\x7bgeometry\x7d
\\usepackage\x7btitlesec\x7d
\\renewcommand\x7b\\arraystretch\x7d\x7b1.3\x7d
\\setlength\x7b\\parskip\x7d\x7b6pt\x7d
\\titleformat\x7b\\section\x7d\x7b\\normalfont\\Large\\bfseries\x7d\x7b\x7d\x7b0pt\x7d\x7b\x7d

\\begin\x7bdocument\x7d

\\begin\x7bcenter\x7d
    \\LARGE \\textbf\x7bTender document comparison system\x7d\\\\
\\end\x7bcenter\x7d

\\vspace\x7b1cm\x7d

\\section*\x7bExecutive Summary\x7d
This report presents a comprehensive compliance analysis of tender requirements against specifications submitted by three firms. Each requirement has been evaluated using AI-powered analysis to determine compliance status.

\\section*\x7bMethodology\x7d
\\begin\x7bitemize\x7d
    \\item \\textbf\x7bRequirement Extraction:\x7d AI-powered extraction of technical requirements from tender document
    \\item \\textbf\x7bCompliance Evaluation:\x7d Systematic comparison of firm specifications against each requirement\x20\x20
    \\item \\textbf\x7bScoring:\x7d Binary compliance assessment (Complied/Not Complied)
\\end\x7bitemize\x7d

\\section*\x7bCompliance Analysis Results\x7d

\\begin\x7blongtable\x7d\x7b|>\x7b\\raggedright\\arraybackslash\x7dp\x7b7cm\x7d|
                        >\x7b\\centering\\arraybackslash\x7dp\x7b2.5cm\x7d|
                        >\x7b\\centering\\arraybackslash\x7dp\x7b2.5cm\x7d|
                        >\x7b\\centering\\arraybackslash\x7dp\x7b2.5cm\x7d|\x7d
\\hline
\\rowcolor\x7bblue!20\x7d
\\textbf\x7bTechnical Requirement\x7d & \\textbf\x7bFirm 1\x7d & \\textbf\x7bFirm 2\x7d & \\textbf\x7bFirm 3\x7d \\\\
\\hline
\\endfirsthead

\\hline
\\rowcolor\x7bblue!20\x7d
\\textbf\x7bTechnical Requirement\x7d & \\textbf\x7bFirm 1\x7d & \\textbf\x7bFirm 2\x7d & \\textbf\x7bFirm 3\x7d \\\\
\\hline
\\endhead
"

/-- The fixed template text of create_compliance_table_latex after the
data rows (scripts/extract_requirements.py lines 211-232), without its
first newline; braces are written as \x7b and \x7d and apostrophes as
\x27. -/
def latexSuffixCore : Str := str "
\\hline
\\end\x7blongtable\x7d

\\section*\x7bLegend\x7d
\\begin\x7bitemize\x7d
    \\item \\textbf\x7bComplied:\x7d Firm\x27s specification meets or exceeds the tender requirement
    \\item \\textbf\x7bNot Complied:\x7d Firm\x27s specification does not meet the tender requirement or information is missing
\\end\x7bitemize\x7d

\\section*\x7bRecommendations\x7d
Based on this automated compliance analysis, decision-makers should:
\\begin\x7benumerate\x7d
    \\item Review firms with highest compliance rates
    \\item Manually verify critical requirements marked as \"Not Complied\"
    \\item Consider requesting clarifications for ambiguous specifications
    \\item Evaluate cost-benefit for over-specified solutions
\\end\x7benumerate\x7d

\\end\x7bdocument\x7d
"

/-- The template text before the rows, exactly as in the source: the
core followed by the newline of its last blank line. -/
def latexPrefix : Str := latexPrefixCore ++ str "\n"

/-- The template text after the rows, exactly as in the source: the
newline ending the line that closes over the rows, then the core. -/
def latexSuffix : Str := str "\n" ++ latexSuffixCore

/-- Embedding of create_compliance_table_latex
(scripts/extract_requirements.py lines 157-233): the fixed template
with the generated rows embedded between its two halves. -/
def create_compliance_table_latex (respond : Str → Str → Str)
    (requirements : List Str) (firm1_text firm2_text firm3_text : Str) : Str :=
  latexPrefix ++
    generate_compliance_comparison respond requirements firm1_text firm2_text firm3_text ++
    latexSuffix

/-! ## scripts/compare_with_ollama.py -/

/-- One structured requirement record as built by
extract_structured_requirements (lines 72-77). -/
structure StructuredReq where
  category : Str
  requirement : Str
  specification : Str
  full_text : Str
deriving DecidableEq

/-- The nine category tokens of extract_structured_requirements
(lines 64-65 of scripts/compare_with_ollama.py). -/
def categories : List Str :=
  [str "HARDWARE", str "SOFTWARE", str "PERFORMANCE", str "ELECTRICAL",
   str "PHYSICAL", str "ENVIRONMENTAL", str "CONNECTIVITY",
   str "CERTIFICATION", str "QUALITY"]

/-- Python line.split with separator colon and maxsplit 2: one, two or
three pieces depending on how many colons occur. -/
def splitColon2 (l : Str) : List Str :=
  match l.dropWhile (fun n => n != 58) with
  | [] => [l]
  | _ :: r1 =>
    match r1.dropWhile (fun n => n != 58) with
    | [] => [l.takeWhile (fun n => n != 58), r1]
    | _ :: r2 =>
      [l.takeWhile (fun n => n != 58), r1.takeWhile (fun n => n != 58), r2]

/-- The per-line parse of extract_structured_requirements (lines 61-77
of scripts/compare_with_ollama.py): the stripped line is accepted when
it contains a colon, some category token occurs in its upper-casing,
and the maxsplit-2 colon split has at least three parts; the record
fields are the stripped parts and full_text joins parts one and two
with a colon and a space. -/
def parseStructuredLine (raw : Str) : Option StructuredReq :=
  let line := strip raw
  if containsStr (str ":") line &&
      categories.any (fun cat => containsStr cat (upper line)) then
    let parts := splitColon2 line
    if 3 ≤ parts.length then
      some { category := strip (parts.getD 0 [])
             requirement := strip (parts.getD 1 [])
             specification := strip (parts.getD 2 [])
             full_text := strip (parts.getD 1 []) ++ str ": " ++
               strip (parts.getD 2 []) }
    else none
  else none

/-- Embedding of extract_structured_requirements
(scripts/compare_with_ollama.py lines 8-80).  The ollama call is
abstracted away: the argument is the response content whose lines the
code parses; accepted lines are collected in order. -/
def extract_structured_requirements (content : Str) : List StructuredReq :=
  (splitLines content).filterMap parseStructuredLine

/-- The STATUS value extracted by smart_compliance_check (lines 122-127
of scripts/compare_with_ollama.py): when the label occurs, the first
line containing it is split on the label and piece one is stripped;
otherwise the default Not Complied stands.  The inner default arms are
unreachable: the guard puts the label in some line, and splitting that
line on the label yields a piece one. -/
def statusOf (result : Str) : Str :=
  if containsStr (str "STATUS:") result then
    match (splitLines result).filter (fun l => containsStr (str "STATUS:") l) with
    | line :: _ => strip (takeBefore (str "STATUS:") (dropNext (str "STATUS:") line))
    | [] => str "Not Complied"
  else str "Not Complied"

/-- The REASON value extracted by smart_compliance_check (lines 129-131),
built exactly as the STATUS value with its own label and default. -/
def reasonOf (result : Str) : Str :=
  if containsStr (str "REASON:") result then
    match (splitLines result).filter (fun l => containsStr (str "REASON:") l) with
    | line :: _ => strip (takeBefore (str "REASON:") (dropNext (str "REASON:") line))
    | [] => str "Unable to determine compliance"
  else str "Unable to determine compliance"

/-- Embedding of smart_compliance_check (scripts/compare_with_ollama.py
lines 83-139).  The argument is the backend response content; the
extracted STATUS value is standardized by the complied-present and
not-absent rule and returned with the extracted reason. -/
def smart_compliance_check (content : Str) : Str × Str :=
  let status := statusOf content
  let reason := reasonOf content
  if containsStr (str "complied") (lower status) &&
      !containsStr (str "not") (lower status)
  then (str "Complied", reason) else (str "Not Complied", reason)

/-- The escaping chain of generate_enhanced_comparison_table
(lines 169-171 of scripts/compare_with_ollama.py): ampersand, percent,
underscore, hash and dollar, in that order. -/
def escapeLatex5 (s : Str) : Str :=
  replaceChar 36 (str "\\$") (escapeLatex4 s)

/-- One colored status cell of generate_enhanced_comparison_table
(lines 174-176): textcolor green for Complied, red otherwise. -/
def statusCell (status : Str) : Str :=
  str "\\textcolor\x7b" ++
    (if status = str "Complied" then str "green" else str "red") ++
    str "\x7d\x7b" ++ status ++ str "\x7d"

/-- One data row of generate_enhanced_comparison_table (line 178). -/
def enhancedRow (respond : Str → Str → Str)
    (firm1_text firm2_text firm3_text : Str) (req : StructuredReq) : Str :=
  escapeLatex5 req.full_text ++ str " & " ++
    statusCell (smart_compliance_check (respond req.full_text firm1_text)).1 ++
    str " & " ++
    statusCell (smart_compliance_check (respond req.full_text firm2_text)).1 ++
    str " & " ++
    statusCell (smart_compliance_check (respond req.full_text firm3_text)).1 ++
    str " \\\\"

/-- The row loop of generate_enhanced_comparison_table (lines 160-183):
after each row except the last, a horizontal line is inserted when the
category of the next requirement differs. -/
def enhancedRows (respond : Str → Str → Str)
    (firm1_text firm2_text firm3_text : Str) : List StructuredReq → List Str
  | [] => []
  | [r] => [enhancedRow respond firm1_text firm2_text firm3_text r]
  | r :: r2 :: rest =>
    enhancedRow respond firm1_text firm2_text firm3_text r ::
      (if r.category ≠ r2.category then [str "\\hline"] else []) ++
        enhancedRows respond firm1_text firm2_text firm3_text (r2 :: rest)

/-- Embedding of generate_enhanced_comparison_table
(scripts/compare_with_ollama.py lines 142-185).  extractResp is the
captured backend response of the structured extraction call on the
tender text and respond the captured responses of the per-cell
compliance calls; an empty requirement list yields the empty string. -/
def generate_enhanced_comparison_table (extractResp : Str)
    (respond : Str → Str → Str) (firm1_text firm2_text firm3_text : Str) : Str :=
  let requirements := extract_structured_requirements extractResp
  if requirements.isEmpty then str ""
  else joinWith (str "\n") (enhancedRows respond firm1_text firm2_text firm3_text requirements)

/-! ## app.py -/

/-- Embedding of the compliance evaluation loop of the analysis handler
(app.py lines 74-83): for each uploaded firm text, in upload order, the
list of verdicts for every requirement in requirement order.  The
matrix is the list of these per-firm columns. -/
def build_matrix (respond : Str → Str → Str)
    (requirements : List Str) (firm_texts : List Str) : List (List Str) :=
  firm_texts.map (fun firm_text =>
    requirements.map (fun req => evaluate_compliance (respond req firm_text)))

/-! ## scripts/generate_report.py -/

/-- One cell test of calculate_compliance_summary (lines 60-64 of
scripts/generate_report.py): the part contains Complied and does not
contain Not Complied. -/
def compliedCell (p : Str) : Bool :=
  containsStr (str "Complied") p && !containsStr (str "Not Complied") p

/-- One step of the line loop of calculate_compliance_summary
(lines 55-65): the accumulator is (total, firm1, firm2, firm3). -/
def summaryLineStep (acc : Nat × Nat × Nat × Nat) (line : Str) :
    Nat × Nat × Nat × Nat :=
  if containsStr (str "&") line && containsStr (str "Complied") line then
    let parts := splitOnChar 38 line
    if 4 ≤ parts.length then
      (acc.1 + 1,
       acc.2.1 + (if compliedCell (parts.getD 1 []) then 1 else 0),
       acc.2.2.1 + (if compliedCell (parts.getD 2 []) then 1 else 0),
       acc.2.2.2 + (if compliedCell (parts.getD 3 []) then 1 else 0))
    else (acc.1 + 1, acc.2.1, acc.2.2.1, acc.2.2.2)
  else acc

/-- The summary record returned by calculate_compliance_summary
(lines 67-75); the Python float percentages are modelled as exact
rationals. -/
structure Summary where
  total_requirements : Nat
  firm1_complied : Nat
  firm2_complied : Nat
  firm3_complied : Nat
  firm1_compliance : ℚ
  firm2_compliance : ℚ
  firm3_compliance : ℚ
deriving DecidableEq

/-- The summary record from the four counters, with the percentage rule
of lines 69-71: complied over total times one hundred, zero when the
total is zero. -/
def mkSummary (t f1 f2 f3 : Nat) : Summary :=
  { total_requirements := t
    firm1_complied := f1
    firm2_complied := f2
    firm3_complied := f3
    firm1_compliance := if 0 < t then (f1 : ℚ) / (t : ℚ) * 100 else 0
    firm2_compliance := if 0 < t then (f2 : ℚ) / (t : ℚ) * 100 else 0
    firm3_compliance := if 0 < t then (f3 : ℚ) / (t : ℚ) * 100 else 0 }

/-- Embedding of calculate_compliance_summary
(scripts/generate_report.py lines 46-75): fold the line loop over the
lines of the rendered report and package the counters. -/
def calculate_compliance_summary (latex_content : Str) : Summary :=
  let r := (splitLines latex_content).foldl summaryLineStep (0, 0, 0, 0)
  mkSummary r.1 r.2.1 r.2.2.1 r.2.2.2

/-- The statistics computed directly from the verdicts, as the analysis
handler does per firm (app.py lines 104-106): the count of Complied
verdicts in the column of one proposal over the number of requirements,
and the same percentage rule. -/
def directSummary (respond : Str → Str → Str)
    (requirements : List Str) (firm1_text firm2_text firm3_text : Str) : Summary :=
  mkSummary requirements.length
    ((requirements.map (fun r => evaluate_compliance (respond r firm1_text))).count (str "Complied"))
    ((requirements.map (fun r => evaluate_compliance (respond r firm2_text))).count (str "Complied"))
    ((requirements.map (fun r => evaluate_compliance (respond r firm3_text))).count (str "Complied"))

/-! ## String model lemmas -/

theorem beginsWith_iff : ∀ p s : Str, beginsWith p s = true ↔ ∃ t, p ++ t = s
  | [], s => by simp [beginsWith]
  | _ :: _, [] => by simp [beginsWith]
  | a :: as, b :: bs => by
    simp only [beginsWith, Bool.and_eq_true, beq_iff_eq, beginsWith_iff as bs,
      List.cons_append, List.cons.injEq]
    constructor
    · rintro ⟨h1, t, h2⟩; exact ⟨t, h1, h2⟩
    · rintro ⟨t, h1, h2⟩; exact ⟨h1, t, h2⟩

theorem containsStr_iff : ∀ p s : Str, containsStr p s = true ↔ ∃ a b, a ++ p ++ b = s
  | p, [] => by
    simp only [containsStr, beginsWith_iff]
    constructor
    · rintro ⟨t, ht⟩
      exact ⟨[], t, by simpa using ht⟩
    · rintro ⟨a, b, h⟩
      rcases List.append_eq_nil.mp h with ⟨h1, h2⟩
      rcases List.append_eq_nil.mp h1 with ⟨h3, h4⟩
      exact ⟨[], by simp [h4]⟩
  | p, x :: t => by
    simp only [containsStr, Bool.or_eq_true, beginsWith_iff, containsStr_iff p t]
    constructor
    · rintro (⟨u, hu⟩ | ⟨a, b, h⟩)
      · exact ⟨[], u, by simpa using hu⟩
      · exact ⟨x :: a, b, by simp [h]⟩
    · rintro ⟨a, b, h⟩
      cases a with
      | nil => exact Or.inl ⟨b, by simpa using h⟩
      | cons y a =>
        simp only [List.cons_append, List.cons.injEq] at h
        exact Or.inr ⟨a, b, h.2⟩

theorem containsStr_append_right (p a b : Str) (h : containsStr p b = true) :
    containsStr p (a ++ b) = true := by
  induction a with
  | nil => simpa using h
  | cons x a ih => simpa [containsStr] using Or.inr ih

theorem beginsWith_append : ∀ p s : Str, beginsWith p s = true →
    ∀ b : Str, beginsWith p (s ++ b) = true
  | [], _, _, _ => rfl
  | _ :: _, [], h, _ => by simp [beginsWith] at h
  | a :: as, c :: cs, h, b => by
    simp only [beginsWith, Bool.and_eq_true] at h ⊢
    exact ⟨h.1, beginsWith_append as cs h.2 b⟩

theorem containsStr_append_left (p : Str) : ∀ a b : Str,
    containsStr p a = true → containsStr p (a ++ b) = true
  | [], b, h => by
    have hp : p = [] := by
      cases p with
      | nil => rfl
      | cons x t => simp [containsStr, beginsWith] at h
    subst hp
    cases b with
    | nil => exact h
    | cons x t => simp [containsStr, beginsWith]
  | x :: a, b, h => by
    simp only [containsStr, Bool.or_eq_true, List.cons_append] at h ⊢
    rcases h with h | h
    · exact Or.inl (beginsWith_append p (x :: a) h b)
    · exact Or.inr (containsStr_append_left p a b h)

theorem containsStr_cons_of (p : Str) (x : Nat) (t : Str)
    (h : containsStr p t = true) : containsStr p (x :: t) = true := by
  simpa [containsStr] using Or.inr h

theorem containsStr_rev_aux (p s : Str) (h : containsStr p s = true) :
    containsStr p.reverse s.reverse = true := by
  obtain ⟨a, b, hab⟩ := (containsStr_iff p s).mp h
  refine (containsStr_iff p.reverse s.reverse).mpr ⟨b.reverse, a.reverse, ?_⟩
  rw [← hab]
  simp [List.reverse_append, List.append_assoc]

theorem containsStr_reverse (p s : Str) :
    containsStr p.reverse s.reverse = containsStr p s := by
  cases h : containsStr p s with
  | true => exact containsStr_rev_aux p s h
  | false =>
    cases hL : containsStr p.reverse s.reverse with
    | false => rfl
    | true =>
      have h2 := containsStr_rev_aux p.reverse s.reverse hL
      simp only [List.reverse_reverse] at h2
      rw [h] at h2
      exact absurd h2 Bool.false_ne_true

theorem containsStr_dropWhileSpace (p : Str) (hne : p ≠ [])
    (hp : ∀ c ∈ p, isSpace c = false) :
    ∀ l : Str, containsStr p (l.dropWhile isSpace) = containsStr p l := by
  intro l
  induction l with
  | nil => rfl
  | cons c t ih =>
    by_cases hc : isSpace c = true
    · have hbw : beginsWith p (c :: t) = false := by
        cases p with
        | nil => exact absurd rfl hne
        | cons a as =>
          have ha : isSpace a = false := hp a (List.mem_cons_self a as)
          have hac : (a == c) = false := by
            refine beq_eq_false_iff_ne.mpr ?_
            intro h; rw [h, hc] at ha; simp at ha
          simp [beginsWith, hac]
      calc containsStr p ((c :: t).dropWhile isSpace)
          = containsStr p (t.dropWhile isSpace) := by
            simp [List.dropWhile_cons, hc]
        _ = containsStr p t := ih
        _ = containsStr p (c :: t) := by simp [containsStr, hbw]
    · simp [List.dropWhile_cons, hc]

theorem containsStr_strip (p : Str) (hne : p ≠ [])
    (hp : ∀ c ∈ p, isSpace c = false) (l : Str) :
    containsStr p (strip l) = containsStr p l := by
  unfold strip
  have hrev : ∀ s : Str, containsStr p s.reverse = containsStr p.reverse s := by
    intro s
    conv_lhs => rw [← List.reverse_reverse p]
    exact containsStr_reverse p.reverse s
  have hner : p.reverse ≠ [] := by simpa using hne
  have hpr : ∀ c ∈ p.reverse, isSpace c = false := by
    intro c hc; exact hp c (List.mem_reverse.mp hc)
  rw [hrev, containsStr_dropWhileSpace p.reverse hner hpr,
    ← containsStr_reverse p.reverse, List.reverse_reverse, List.reverse_reverse,
    containsStr_dropWhileSpace p hne hp]

theorem isSpace_toLowerN (n : Nat) : isSpace (toLowerN n) = isSpace n := by
  unfold toLowerN
  split
  · rename_i h
    have h1 : isSpace (n + 32) = false := by
      simp only [isSpace, Bool.or_eq_false_iff, beq_eq_false_iff_ne, ne_eq]
      omega
    have h2 : isSpace n = false := by
      simp only [isSpace, Bool.or_eq_false_iff, beq_eq_false_iff_ne, ne_eq]
      omega
    rw [h1, h2]
  · rfl

theorem map_toLowerN_dropWhile (l : Str) :
    (l.dropWhile isSpace).map toLowerN = (l.map toLowerN).dropWhile isSpace := by
  induction l with
  | nil => rfl
  | cons c t ih =>
    simp only [List.map_cons, List.dropWhile_cons, isSpace_toLowerN]
    by_cases h : isSpace c = true
    · simp [h, ih]
    · simp only [Bool.not_eq_true] at h
      simp [h]

theorem lower_strip (l : Str) : lower (strip l) = strip (lower l) := by
  unfold strip lower
  simp only [List.map_reverse, map_toLowerN_dropWhile]

theorem containsStr_lower_strip (p : Str) (hne : p ≠ [])
    (hp : ∀ c ∈ p, isSpace c = false) (r : Str) :
    containsStr p (lower (strip r)) = containsStr p (lower r) := by
  rw [lower_strip]
  exact containsStr_strip p hne hp (lower r)

/-! ## Classifier characterizations -/

theorem evaluate_compliance_eq (r : Str) :
    evaluate_compliance r =
      (if containsStr (str "complied") (lower r) &&
          !containsStr (str "not") (lower r)
       then str "Complied" else str "Not Complied") := by
  have h0 : evaluate_compliance r =
      (if containsStr (str "complied") (lower (strip r)) &&
          !containsStr (str "not") (lower (strip r))
       then str "Complied" else str "Not Complied") := rfl
  rw [h0, containsStr_lower_strip (str "complied") (by decide) (by decide) r,
    containsStr_lower_strip (str "not") (by decide) (by decide) r]

theorem evaluate_compliance_cases (r : Str) :
    evaluate_compliance r = str "Complied" ∨
      evaluate_compliance r = str "Not Complied" := by
  rw [evaluate_compliance_eq]
  split
  · exact Or.inl rfl
  · exact Or.inr rfl

theorem evaluate_compliance_complied_iff (r : Str) :
    evaluate_compliance r = str "Complied" ↔
      (containsStr (str "complied") (lower r) = true ∧
        containsStr (str "not") (lower r) = false) := by
  rw [evaluate_compliance_eq]
  split
  · rename_i h
    simp only [Bool.and_eq_true, Bool.not_eq_true'] at h
    simp [h]
  · rename_i h
    simp only [Bool.and_eq_true, Bool.not_eq_true'] at h
    constructor
    · intro heq; exact absurd heq (by decide)
    · intro hc; exact absurd hc h

theorem evaluate_compliance_not_complied (r : Str)
    (h : ¬ (containsStr (str "complied") (lower r) = true ∧
        containsStr (str "not") (lower r) = false)) :
    evaluate_compliance r = str "Not Complied" := by
  rcases evaluate_compliance_cases r with hc | hn
  · exact absurd ((evaluate_compliance_complied_iff r).mp hc) h
  · exact hn

theorem smart_fst_eq (r : Str) :
    (smart_compliance_check r).1 =
      (if containsStr (str "complied") (lower (statusOf r)) &&
          !containsStr (str "not") (lower (statusOf r))
       then str "Complied" else str "Not Complied") := by
  have h0 : smart_compliance_check r =
      (if containsStr (str "complied") (lower (statusOf r)) &&
          !containsStr (str "not") (lower (statusOf r))
       then (str "Complied", reasonOf r) else (str "Not Complied", reasonOf r)) := rfl
  rw [h0]
  split
  · rfl
  · rfl

theorem smart_cases (r : Str) :
    (smart_compliance_check r).1 = str "Complied" ∨
      (smart_compliance_check r).1 = str "Not Complied" := by
  rw [smart_fst_eq]
  split
  · exact Or.inl rfl
  · exact Or.inr rfl

theorem smart_complied_iff (r : Str) :
    (smart_compliance_check r).1 = str "Complied" ↔
      (containsStr (str "complied") (lower (statusOf r)) = true ∧
        containsStr (str "not") (lower (statusOf r)) = false) := by
  rw [smart_fst_eq]
  split
  · rename_i h
    simp only [Bool.and_eq_true, Bool.not_eq_true'] at h
    simp [h]
  · rename_i h
    simp only [Bool.and_eq_true, Bool.not_eq_true'] at h
    constructor
    · intro heq; exact absurd heq (by decide)
    · intro hc; exact absurd hc h

theorem statusOf_no_label (r : Str)
    (h : containsStr (str "STATUS:") r = false) :
    statusOf r = str "Not Complied" := by
  unfold statusOf
  rw [h]
  rfl

theorem smart_no_label (r : Str)
    (h : containsStr (str "STATUS:") r = false) :
    (smart_compliance_check r).1 = str "Not Complied" := by
  rw [smart_fst_eq, statusOf_no_label r h]
  decide

/-! ## Split and join lemmas -/

theorem splitOnChar_ne_nil (c : Nat) : ∀ s : Str, splitOnChar c s ≠ []
  | [] => by simp [splitOnChar]
  | x :: t => by
    simp only [splitOnChar]
    split
    · simp
    · split
      · simp
      · simp

theorem splitOnChar_of_not_mem (c : Nat) : ∀ s : Str, c ∉ s → splitOnChar c s = [s]
  | [], _ => rfl
  | x :: t, h => by
    have hx : (x == c) = false := by
      refine beq_eq_false_iff_ne.mpr ?_
      intro hxc; exact h (hxc ▸ List.mem_cons_self x t)
    have ht : c ∉ t := fun hm => h (List.mem_cons_of_mem x hm)
    simp only [splitOnChar, hx, splitOnChar_of_not_mem c t ht]
    rfl

theorem splitOnChar_append_cons (c : Nat) :
    ∀ a b : Str, splitOnChar c (a ++ c :: b) = splitOnChar c a ++ splitOnChar c b
  | [], b => by
    show splitOnChar c (c :: b) = splitOnChar c [] ++ splitOnChar c b
    simp [splitOnChar]
  | x :: t, b => by
    show splitOnChar c (x :: (t ++ c :: b)) = splitOnChar c (x :: t) ++ splitOnChar c b
    by_cases hx : x = c
    · have hxc : (x == c) = true := beq_iff_eq.mpr hx
      have e1 : splitOnChar c (x :: (t ++ c :: b)) =
          [] :: splitOnChar c (t ++ c :: b) := by
        simp [splitOnChar, hxc]
      have e2 : splitOnChar c (x :: t) = [] :: splitOnChar c t := by
        simp [splitOnChar, hxc]
      rw [e1, e2, splitOnChar_append_cons c t b]
      rfl
    · have hxc : (x == c) = false := beq_eq_false_iff_ne.mpr hx
      obtain ⟨h0, r0, hsplit⟩ : ∃ h0 r0, splitOnChar c t = h0 :: r0 := by
        cases hs : splitOnChar c t with
        | nil => exact absurd hs (splitOnChar_ne_nil c t)
        | cons h0 r0 => exact ⟨h0, r0, rfl⟩
      have e1 : splitOnChar c (x :: (t ++ c :: b)) =
          match splitOnChar c (t ++ c :: b) with
          | [] => [[x]]
          | h :: r => (x :: h) :: r := by
        simp [splitOnChar, hxc]
      have e2 : splitOnChar c (x :: t) = (x :: h0) :: r0 := by
        simp [splitOnChar, hxc, hsplit]
      rw [e1, splitOnChar_append_cons c t b, hsplit, e2]
      rfl

theorem splitOnChar_joinWith (c : Nat) :
    ∀ rs : List Str, rs ≠ [] → (∀ r ∈ rs, c ∉ r) →
      splitOnChar c (joinWith [c] rs) = rs
  | [], h, _ => absurd rfl h
  | [r], _, hmem => by
    simp only [joinWith]
    exact splitOnChar_of_not_mem c r (hmem r (List.mem_cons_self r []))
  | r :: r2 :: rest, _, hmem => by
    have hr : c ∉ r := hmem r (List.mem_cons_self r (r2 :: rest))
    have hrec : ∀ x ∈ r2 :: rest, c ∉ x := by
      intro x hx; exact hmem x (List.mem_cons_of_mem r hx)
    have : joinWith [c] (r :: r2 :: rest) = r ++ c :: joinWith [c] (r2 :: rest) := by
      simp [joinWith]
    rw [this, splitOnChar_append_cons, splitOnChar_of_not_mem c r hr,
      splitOnChar_joinWith c (r2 :: rest) (by simp) hrec]
    rfl

/-! ## Escaping machinery -/

/-- Character-by-character form of an escaping pass: each code point is
replaced by a chunk. -/
def escMap (f : Nat → Str) : Str → Str
  | [] => []
  | c :: t => f c ++ escMap f t

/-- The chunk of one code point under the four-character escaping. -/
def esc4c (n : Nat) : Str :=
  if n = 38 then [92, 38] else if n = 37 then [92, 37]
  else if n = 95 then [92, 95] else if n = 35 then [92, 35] else [n]

/-- The chunk of one code point under the five-character escaping. -/
def esc5c (n : Nat) : Str :=
  if n = 38 then [92, 38] else if n = 37 then [92, 37]
  else if n = 95 then [92, 95] else if n = 35 then [92, 35]
  else if n = 36 then [92, 36] else [n]

theorem replaceChar_append (c : Nat) (rep : Str) :
    ∀ a b : Str, replaceChar c rep (a ++ b) = replaceChar c rep a ++ replaceChar c rep b
  | [], b => rfl
  | x :: t, b => by
    show replaceChar c rep (x :: (t ++ b)) =
      replaceChar c rep (x :: t) ++ replaceChar c rep b
    simp only [replaceChar, replaceChar_append c rep t b, List.append_assoc]

theorem escapeLatex4_eq_escMap (s : Str) : escapeLatex4 s = escMap esc4c s := by
  have hamp : str "\\&" = [92, 38] := by decide
  have hpct : str "\\%" = [92, 37] := by decide
  have hund : str "\\_" = [92, 95] := by decide
  have hhsh : str "\\#" = [92, 35] := by decide
  induction s with
  | nil => rfl
  | cons c t ih =>
    simp only [escapeLatex4] at ih ⊢
    rw [hamp, hpct, hund, hhsh] at ih
    by_cases h1 : c = 38
    · subst h1
      simp [replaceChar, replaceChar_append, ih, escMap, esc4c,
        hamp, hpct, hund, hhsh]
    by_cases h2 : c = 37
    · subst h2
      simp [replaceChar, replaceChar_append, ih, escMap, esc4c,
        hamp, hpct, hund, hhsh]
    by_cases h3 : c = 95
    · subst h3
      simp [replaceChar, replaceChar_append, ih, escMap, esc4c,
        hamp, hpct, hund, hhsh]
    by_cases h4 : c = 35
    · subst h4
      simp [replaceChar, replaceChar_append, ih, escMap, esc4c,
        hamp, hpct, hund, hhsh]
    · simp [replaceChar, replaceChar_append, ih, escMap, esc4c, h1, h2, h3, h4,
        hamp, hpct, hund, hhsh]

theorem escapeLatex5_eq_escMap (s : Str) : escapeLatex5 s = escMap esc5c s := by
  unfold escapeLatex5
  rw [escapeLatex4_eq_escMap]
  induction s with
  | nil => rfl
  | cons c t ih =>
    simp only [escMap, replaceChar_append, ih]
    congr 1
    by_cases h1 : c = 38
    · subst h1; rfl
    by_cases h2 : c = 37
    · subst h2; rfl
    by_cases h3 : c = 95
    · subst h3; rfl
    by_cases h4 : c = 35
    · subst h4; rfl
    by_cases h5 : c = 36
    · subst h5
      simp [esc4c, esc5c, replaceChar, h1, h2, h3, h4,
        (by decide : str "\\$" = [92, 36])]
    · simp [esc4c, esc5c, replaceChar, h1, h2, h3, h4, h5]

theorem mem_escMap (f : Nat → Str) :
    ∀ (s : Str) (x : Nat), x ∈ escMap f s → ∃ y ∈ s, x ∈ f y
  | [], x, h => by simp [escMap] at h
  | c :: t, x, h => by
    simp only [escMap, List.mem_append] at h
    rcases h with h | h
    · exact ⟨c, List.mem_cons_self c t, h⟩
    · obtain ⟨y, hy, hxy⟩ := mem_escMap f t x h
      exact ⟨y, List.mem_cons_of_mem c hy, hxy⟩

theorem mem_esc4c (x y : Nat) (hx : x ≠ 92) (h : x ∈ esc4c y) : x = y := by
  unfold esc4c at h
  split at h
  · rename_i hy; simp at h; rcases h with h | h
    · exact absurd h hx
    · omega
  split at h
  · rename_i hy; simp at h; rcases h with h | h
    · exact absurd h hx
    · omega
  split at h
  · rename_i hy; simp at h; rcases h with h | h
    · exact absurd h hx
    · omega
  split at h
  · rename_i hy; simp at h; rcases h with h | h
    · exact absurd h hx
    · omega
  · simp at h; exact h

theorem mem_esc5c (x y : Nat) (hx : x ≠ 92) (h : x ∈ esc5c y) : x = y := by
  unfold esc5c at h
  split at h
  · rename_i hy; simp at h; rcases h with h | h
    · exact absurd h hx
    · omega
  split at h
  · rename_i hy; simp at h; rcases h with h | h
    · exact absurd h hx
    · omega
  split at h
  · rename_i hy; simp at h; rcases h with h | h
    · exact absurd h hx
    · omega
  split at h
  · rename_i hy; simp at h; rcases h with h | h
    · exact absurd h hx
    · omega
  split at h
  · rename_i hy; simp at h; rcases h with h | h
    · exact absurd h hx
    · omega
  · simp at h; exact h

theorem not_mem_escapeLatex4 (x : Nat) (hx : x ≠ 92) (s : Str) (hs : x ∉ s) :
    x ∉ escapeLatex4 s := by
  rw [escapeLatex4_eq_escMap]
  intro h
  obtain ⟨y, hy, hxy⟩ := mem_escMap esc4c s x h
  exact hs ((mem_esc4c x y hx hxy) ▸ hy)

/-- Scanner state for noRaw: prev is the code point immediately before
the rest of the string. -/
def noRawAux (c prev : Nat) : Str → Bool
  | [] => true
  | x :: t => ((x != c) || (prev == 92)) && noRawAux c x t

/-- Every occurrence of the code point c in s is immediately preceded
by a backslash. -/
def noRaw (c : Nat) (s : Str) : Bool := noRawAux c 0 s

theorem noRawAux_escMap4 (c : Nat) (hc : c = 38 ∨ c = 37 ∨ c = 95 ∨ c = 35) :
    ∀ (s : Str) (prev : Nat), noRawAux c prev (escMap esc4c s) = true := by
  have hc92 : (92 != c) = true := by
    rcases hc with h | h | h | h <;> subst h <;> decide
  intro s
  induction s with
  | nil => intro prev; rfl
  | cons x t ih =>
    intro prev
    show noRawAux c prev (esc4c x ++ escMap esc4c t) = true
    by_cases h1 : x = 38
    · subst h1; simp [esc4c, noRawAux, hc92, ih]
    by_cases h2 : x = 37
    · subst h2; simp [esc4c, noRawAux, hc92, ih]
    by_cases h3 : x = 95
    · subst h3; simp [esc4c, noRawAux, hc92, ih]
    by_cases h4 : x = 35
    · subst h4; simp [esc4c, noRawAux, hc92, ih]
    · have hxc : (x != c) = true := by
        rcases hc with h | h | h | h <;> subst h <;> simpa using (by assumption : ¬x = _)
      simp [esc4c, h1, h2, h3, h4, noRawAux, hxc, ih]

theorem noRaw_escapeLatex4 (c : Nat) (hc : c = 38 ∨ c = 37 ∨ c = 95 ∨ c = 35)
    (s : Str) : noRaw c (escapeLatex4 s) = true := by
  rw [escapeLatex4_eq_escMap]
  exact noRawAux_escMap4 c hc s 0

theorem noRawAux_escMap5 (c : Nat)
    (hc : c = 38 ∨ c = 37 ∨ c = 95 ∨ c = 35 ∨ c = 36) :
    ∀ (s : Str) (prev : Nat), noRawAux c prev (escMap esc5c s) = true := by
  have hc92 : (92 != c) = true := by
    rcases hc with h | h | h | h | h <;> subst h <;> decide
  intro s
  induction s with
  | nil => intro prev; rfl
  | cons x t ih =>
    intro prev
    show noRawAux c prev (esc5c x ++ escMap esc5c t) = true
    by_cases h1 : x = 38
    · subst h1; simp [esc5c, noRawAux, hc92, ih]
    by_cases h2 : x = 37
    · subst h2; simp [esc5c, noRawAux, hc92, ih]
    by_cases h3 : x = 95
    · subst h3; simp [esc5c, noRawAux, hc92, ih]
    by_cases h4 : x = 35
    · subst h4; simp [esc5c, noRawAux, hc92, ih]
    by_cases h5 : x = 36
    · subst h5; simp [esc5c, noRawAux, hc92, ih]
    · have hxc : (x != c) = true := by
        rcases hc with h | h | h | h | h <;> subst h <;>
          simpa using (by assumption : ¬x = _)
      simp [esc5c, h1, h2, h3, h4, h5, noRawAux, hxc, ih]

theorem noRaw_escapeLatex5 (c : Nat)
    (hc : c = 38 ∨ c = 37 ∨ c = 95 ∨ c = 35 ∨ c = 36)
    (s : Str) : noRaw c (escapeLatex5 s) = true := by
  rw [escapeLatex5_eq_escMap]
  exact noRawAux_escMap5 c hc s 0

theorem escaped_present_escMap4 (c : Nat)
    (hc : c = 38 ∨ c = 37 ∨ c = 95 ∨ c = 35) :
    ∀ s : Str, c ∈ s → containsStr [92, c] (escMap esc4c s) = true := by
  intro s
  induction s with
  | nil => intro h; simp at h
  | cons x t ih =>
    intro h
    show containsStr [92, c] (esc4c x ++ escMap esc4c t) = true
    rcases List.mem_cons.mp h with hx | hx
    · subst hx
      have : esc4c c = [92, c] := by
        rcases hc with h | h | h | h <;> subst h <;> rfl
      rw [this]
      exact containsStr_append_left [92, c] [92, c] _ (by simp [containsStr, beginsWith])
    · exact containsStr_append_right [92, c] _ _ (ih hx)

theorem escaped_present_escMap5 (c : Nat)
    (hc : c = 38 ∨ c = 37 ∨ c = 95 ∨ c = 35 ∨ c = 36) :
    ∀ s : Str, c ∈ s → containsStr [92, c] (escMap esc5c s) = true := by
  intro s
  induction s with
  | nil => intro h; simp at h
  | cons x t ih =>
    intro h
    show containsStr [92, c] (esc5c x ++ escMap esc5c t) = true
    rcases List.mem_cons.mp h with hx | hx
    · subst hx
      have : esc5c c = [92, c] := by
        rcases hc with h | h | h | h | h <;> subst h <;> rfl
      rw [this]
      exact containsStr_append_left [92, c] [92, c] _ (by simp [containsStr, beginsWith])
    · exact containsStr_append_right [92, c] _ _ (ih hx)

/-! ## Extraction lemmas -/

/-- Concatenation of a list of strings. -/
def concatAll : List Str → Str
  | [] => []
  | s :: rest => s ++ concatAll rest

/-- The concatenated text layer of the pages: what the first loop of
extract_text accumulates. -/
def textLayer (pages : List (Option Str)) : Str :=
  concatAll (pages.map (fun p => p.getD []))

theorem foldl_append_eq_concatAll :
    ∀ (l : List Str) (a : Str), l.foldl (fun x y => x ++ y) a = a ++ concatAll l
  | [], a => by simp [concatAll]
  | s :: rest, a => by
    simp only [List.foldl_cons, foldl_append_eq_concatAll rest (a ++ s),
      concatAll, List.append_assoc]

theorem foldl_pages_eq_textLayer :
    ∀ (pages : List (Option Str)) (a : Str),
      pages.foldl (fun acc p => acc ++ p.getD []) a = a ++ textLayer pages
  | [], a => by simp [textLayer, concatAll]
  | p :: rest, a => by
    simp only [List.foldl_cons, foldl_pages_eq_textLayer rest (a ++ p.getD []),
      textLayer, List.map_cons, concatAll, List.append_assoc]

theorem extract_text_eq (pages : List (Option Str)) (ocr_pages : List Str) :
    extract_text pages ocr_pages =
      (if strip (textLayer pages) ≠ [] then textLayer pages
       else textLayer pages ++ concatAll ocr_pages) := by
  have h0 : extract_text pages ocr_pages =
      (if strip (textLayer pages) ≠ [] then textLayer pages
       else ocr_pages.foldl (fun acc s => acc ++ s) (textLayer pages)) := by
    unfold extract_text
    rw [show pages.foldl (fun acc p => acc ++ p.getD []) [] = textLayer pages from by
      simpa using foldl_pages_eq_textLayer pages []]
  rw [h0]
  split
  · rfl
  · exact foldl_append_eq_concatAll ocr_pages (textLayer pages)

/-! ## Matrix lemmas -/

theorem getElem?_map_list {α β : Type} (f : α → β) :
    ∀ (l : List α) (i : Nat), (l.map f)[i]? = (l[i]?).map f
  | [], i => by simp
  | x :: t, 0 => by simp
  | x :: t, i + 1 => by
    simp only [List.map_cons, List.getElem?_cons_succ]
    exact getElem?_map_list f t i

/-! ## Summary lemmas -/

/-- The line test that increments the total counter of
calculate_compliance_summary. -/
def rowCounted (line : Str) : Bool :=
  containsStr (str "&") line && containsStr (str "Complied") line

/-- The line test that increments the per-firm counter k of
calculate_compliance_summary. -/
def rowFirm (k : Nat) (line : Str) : Bool :=
  rowCounted line && decide (4 ≤ (splitOnChar 38 line).length) &&
    compliedCell ((splitOnChar 38 line).getD k [])

theorem summaryLineStep_eq (acc : Nat × Nat × Nat × Nat) (line : Str) :
    summaryLineStep acc line =
      (acc.1 + (if rowCounted line then 1 else 0),
       acc.2.1 + (if rowFirm 1 line then 1 else 0),
       acc.2.2.1 + (if rowFirm 2 line then 1 else 0),
       acc.2.2.2 + (if rowFirm 3 line then 1 else 0)) := by
  unfold summaryLineStep rowFirm rowCounted
  by_cases h1 : (containsStr (str "&") line && containsStr (str "Complied") line) = true
  · rw [if_pos h1]
    by_cases h2 : 4 ≤ (splitOnChar 38 line).length
    · simp [h1, h2]
    · simp [h1, h2]
  · have h1f : (containsStr (str "&") line && containsStr (str "Complied") line) = false :=
      Bool.not_eq_true _ ▸ Bool.eq_false_iff.mpr h1
    simp [h1f]

theorem foldl_summaryLineStep :
    ∀ (ls : List Str) (a b c d : Nat),
      ls.foldl summaryLineStep (a, b, c, d) =
        (a + ls.countP rowCounted, b + ls.countP (rowFirm 1),
         c + ls.countP (rowFirm 2), d + ls.countP (rowFirm 3))
  | [], a, b, c, d => by simp
  | l :: t, a, b, c, d => by
    simp only [List.foldl_cons, summaryLineStep_eq]
    rw [foldl_summaryLineStep t]
    simp only [List.countP_cons]
    refine Prod.ext ?_ (Prod.ext ?_ (Prod.ext ?_ ?_)) <;> simp <;> omega

/-- One rendered row of generate_compliance_comparison for one
requirement, with the backend abstraction applied. -/
def rowOf (respond : Str → Str → Str) (firm1_text firm2_text firm3_text req : Str) : Str :=
  latexRow req
    (evaluate_compliance (respond req firm1_text))
    (evaluate_compliance (respond req firm2_text))
    (evaluate_compliance (respond req firm3_text))

theorem generate_compliance_comparison_eq (respond : Str → Str → Str)
    (requirements : List Str) (f1 f2 f3 : Str) :
    generate_compliance_comparison respond requirements f1 f2 f3 =
      joinWith (str "\n") (requirements.map (rowOf respond f1 f2 f3)) := rfl

theorem verdict_no38 (x : Str) : 38 ∉ evaluate_compliance x := by
  rcases evaluate_compliance_cases x with h | h <;> rw [h] <;> decide

theorem verdict_no10 (x : Str) : 10 ∉ evaluate_compliance x := by
  rcases evaluate_compliance_cases x with h | h <;> rw [h] <;> decide

theorem verdict_contains_Complied (x : Str) :
    containsStr (str "Complied") (evaluate_compliance x) = true := by
  rcases evaluate_compliance_cases x with h | h <;> rw [h] <;> decide

theorem compliedCell_mid (x : Str) :
    compliedCell (32 :: (evaluate_compliance x ++ [32])) =
      (evaluate_compliance x == str "Complied") := by
  rcases evaluate_compliance_cases x with h | h <;> rw [h] <;> decide

theorem compliedCell_last (x : Str) :
    compliedCell (32 :: (evaluate_compliance x ++ [32, 92, 92])) =
      (evaluate_compliance x == str "Complied") := by
  rcases evaluate_compliance_cases x with h | h <;> rw [h] <;> decide

theorem latexRow_decomp (req v1 v2 v3 : Str) :
    latexRow req v1 v2 v3 =
      (escapeLatex4 req ++ [32]) ++ 38 ::
        (([32] ++ v1 ++ [32]) ++ 38 ::
          (([32] ++ v2 ++ [32]) ++ 38 :: ([32] ++ v3 ++ [32, 92, 92]))) := by
  unfold latexRow
  rw [(by decide : str " & " = [32, 38, 32]),
    (by decide : str " \\\\" = [32, 92, 92])]
  simp [List.append_assoc]

theorem splitOnChar_latexRow (req v1 v2 v3 : Str) (h38 : 38 ∉ req)
    (hv1 : 38 ∉ v1) (hv2 : 38 ∉ v2) (hv3 : 38 ∉ v3) :
    splitOnChar 38 (latexRow req v1 v2 v3) =
      [escapeLatex4 req ++ [32], [32] ++ v1 ++ [32], [32] ++ v2 ++ [32],
       [32] ++ v3 ++ [32, 92, 92]] := by
  have hA : 38 ∉ escapeLatex4 req ++ [32] := by
    intro h
    rcases List.mem_append.mp h with h | h
    · exact not_mem_escapeLatex4 38 (by decide) req h38 h
    · simp at h
  have hB : ∀ v : Str, 38 ∉ v → 38 ∉ [32] ++ v ++ [32] := by
    intro v hv h
    rcases List.mem_append.mp h with h | h
    · rcases List.mem_append.mp h with h | h
      · simp at h
      · exact hv h
    · simp at h
  have hB3 : 38 ∉ [32] ++ v3 ++ [32, 92, 92] := by
    intro h
    rcases List.mem_append.mp h with h | h
    · rcases List.mem_append.mp h with h | h
      · simp at h
      · exact hv3 h
    · simp at h
  rw [latexRow_decomp, splitOnChar_append_cons, splitOnChar_append_cons,
    splitOnChar_append_cons, splitOnChar_of_not_mem 38 _ hA,
    splitOnChar_of_not_mem 38 _ (hB v1 hv1), splitOnChar_of_not_mem 38 _ (hB v2 hv2),
    splitOnChar_of_not_mem 38 _ hB3]
  rfl

theorem rowCounted_latexRow (req v1 v2 v3 : Str)
    (hc : containsStr (str "Complied") v1 = true) :
    rowCounted (latexRow req v1 v2 v3) = true := by
  unfold rowCounted
  rw [latexRow_decomp]
  have hamp : containsStr (str "&")
      ((escapeLatex4 req ++ [32]) ++ 38 ::
        (([32] ++ v1 ++ [32]) ++ 38 ::
          (([32] ++ v2 ++ [32]) ++ 38 :: ([32] ++ v3 ++ [32, 92, 92])))) = true := by
    apply containsStr_append_right
    simp [containsStr, beginsWith, str]
  have h1 : containsStr (str "Complied") (32 :: v1) = true :=
    containsStr_cons_of _ 32 v1 hc
  have h2 : containsStr (str "Complied") ([32] ++ v1 ++ [32]) = true := by
    rw [show ([32] : Str) ++ v1 ++ [32] = (32 :: v1) ++ [32] from by simp]
    exact containsStr_append_left _ _ _ h1
  have h3 : containsStr (str "Complied")
      (([32] ++ v1 ++ [32]) ++ 38 ::
        (([32] ++ v2 ++ [32]) ++ 38 :: ([32] ++ v3 ++ [32, 92, 92]))) = true :=
    containsStr_append_left _ _ _ h2
  have h4 : containsStr (str "Complied")
      (38 :: (([32] ++ v1 ++ [32]) ++ 38 ::
        (([32] ++ v2 ++ [32]) ++ 38 :: ([32] ++ v3 ++ [32, 92, 92])))) = true :=
    containsStr_cons_of _ 38 _ h3
  have h5 : containsStr (str "Complied")
      ((escapeLatex4 req ++ [32]) ++ 38 ::
        (([32] ++ v1 ++ [32]) ++ 38 ::
          (([32] ++ v2 ++ [32]) ++ 38 :: ([32] ++ v3 ++ [32, 92, 92])))) = true :=
    containsStr_append_right _ _ _ h4
  rw [hamp, h5]
  rfl

theorem row_facts (respond : Str → Str → Str) (f1 f2 f3 req : Str)
    (h38 : 38 ∉ req) :
    rowCounted (rowOf respond f1 f2 f3 req) = true ∧
    rowFirm 1 (rowOf respond f1 f2 f3 req) =
      (evaluate_compliance (respond req f1) == str "Complied") ∧
    rowFirm 2 (rowOf respond f1 f2 f3 req) =
      (evaluate_compliance (respond req f2) == str "Complied") ∧
    rowFirm 3 (rowOf respond f1 f2 f3 req) =
      (evaluate_compliance (respond req f3) == str "Complied") := by
  have hsplit := splitOnChar_latexRow req
    (evaluate_compliance (respond req f1)) (evaluate_compliance (respond req f2))
    (evaluate_compliance (respond req f3)) h38
    (verdict_no38 _) (verdict_no38 _) (verdict_no38 _)
  have hcount : rowCounted (rowOf respond f1 f2 f3 req) = true :=
    rowCounted_latexRow req _ _ _ (verdict_contains_Complied _)
  refine ⟨hcount, ?_, ?_, ?_⟩ <;>
    (unfold rowFirm rowOf at *; rw [hsplit, hcount]) <;>
    simp [compliedCell_mid, compliedCell_last]

theorem row_no10 (respond : Str → Str → Str) (f1 f2 f3 req : Str)
    (h10 : 10 ∉ req) : 10 ∉ rowOf respond f1 f2 f3 req := by
  unfold rowOf
  rw [latexRow_decomp]
  intro h
  have hA : 10 ∉ escapeLatex4 req ++ [32] := by
    intro h
    rcases List.mem_append.mp h with h | h
    · exact not_mem_escapeLatex4 10 (by decide) req h10 h
    · simp at h
  have hB : ∀ x : Str, 10 ∉ [32] ++ evaluate_compliance x ++ [32] := by
    intro x h
    rcases List.mem_append.mp h with h | h
    · rcases List.mem_append.mp h with h | h
      · simp at h
      · exact verdict_no10 x h
    · simp at h
  have hB3 : 10 ∉ [32] ++ evaluate_compliance (respond req f3) ++ [32, 92, 92] := by
    intro h
    rcases List.mem_append.mp h with h | h
    · rcases List.mem_append.mp h with h | h
      · simp at h
      · exact verdict_no10 _ h
    · simp at h
  rcases List.mem_append.mp h with h | h
  · exact hA h
  rcases List.mem_cons.mp h with h | h
  · simp at h
  rcases List.mem_append.mp h with h | h
  · exact hB (respond req f1) h
  rcases List.mem_cons.mp h with h | h
  · simp at h
  rcases List.mem_append.mp h with h | h
  · exact hB (respond req f2) h
  rcases List.mem_cons.mp h with h | h
  · simp at h
  · exact hB3 h

theorem countP_map_list {α β : Type} (p : β → Bool) (f : α → β) :
    ∀ l : List α, (l.map f).countP p = l.countP (fun a => p (f a))
  | [] => rfl
  | x :: t => by
    simp only [List.map_cons, List.countP_cons, countP_map_list p f t]

theorem countP_congr_list {α : Type} (p q : α → Bool) :
    ∀ l : List α, (∀ a ∈ l, p a = q a) → l.countP p = l.countP q
  | [], _ => rfl
  | x :: t, h => by
    simp only [List.countP_cons, h x (List.mem_cons_self x t),
      countP_congr_list p q t (fun a ha => h a (List.mem_cons_of_mem x ha))]

theorem countP_eq_length_list {α : Type} (p : α → Bool) :
    ∀ l : List α, (∀ a ∈ l, p a = true) → l.countP p = l.length
  | [], _ => rfl
  | x :: t, h => by
    simp only [List.countP_cons, h x (List.mem_cons_self x t),
      countP_eq_length_list p t (fun a ha => h a (List.mem_cons_of_mem x ha)),
      List.length_cons, if_pos]

theorem splitLines_create (respond : Str → Str → Str) (reqs : List Str)
    (f1 f2 f3 : Str) :
    splitLines (create_compliance_table_latex respond reqs f1 f2 f3) =
      splitLines latexPrefixCore ++
        splitLines (generate_compliance_comparison respond reqs f1 f2 f3) ++
        splitLines latexSuffixCore := by
  unfold create_compliance_table_latex latexPrefix latexSuffix
  rw [(by decide : str "\n" = ([10] : Str))]
  rw [show latexPrefixCore ++ [10] ++
      generate_compliance_comparison respond reqs f1 f2 f3 ++
      ([10] ++ latexSuffixCore) =
      latexPrefixCore ++ 10 ::
        (generate_compliance_comparison respond reqs f1 f2 f3 ++
          10 :: latexSuffixCore) from by simp]
  unfold splitLines
  rw [splitOnChar_append_cons, splitOnChar_append_cons, List.append_assoc]

theorem summary_of_create (respond : Str → Str → Str) (reqs : List Str)
    (f1 f2 f3 : Str) (hreq : ∀ r ∈ reqs, 38 ∉ r ∧ 10 ∉ r) :
    calculate_compliance_summary
        (create_compliance_table_latex respond reqs f1 f2 f3) =
      directSummary respond reqs f1 f2 f3 := by
  have e : calculate_compliance_summary
      (create_compliance_table_latex respond reqs f1 f2 f3) =
      mkSummary
        ((splitLines (create_compliance_table_latex respond reqs f1 f2 f3)).countP rowCounted)
        ((splitLines (create_compliance_table_latex respond reqs f1 f2 f3)).countP (rowFirm 1))
        ((splitLines (create_compliance_table_latex respond reqs f1 f2 f3)).countP (rowFirm 2))
        ((splitLines (create_compliance_table_latex respond reqs f1 f2 f3)).countP (rowFirm 3)) := by
    have h0 : calculate_compliance_summary
        (create_compliance_table_latex respond reqs f1 f2 f3) =
        mkSummary
          ((splitLines (create_compliance_table_latex respond reqs f1 f2 f3)).foldl
            summaryLineStep (0, 0, 0, 0)).1
          ((splitLines (create_compliance_table_latex respond reqs f1 f2 f3)).foldl
            summaryLineStep (0, 0, 0, 0)).2.1
          ((splitLines (create_compliance_table_latex respond reqs f1 f2 f3)).foldl
            summaryLineStep (0, 0, 0, 0)).2.2.1
          ((splitLines (create_compliance_table_latex respond reqs f1 f2 f3)).foldl
            summaryLineStep (0, 0, 0, 0)).2.2.2 := rfl
    rw [h0, foldl_summaryLineStep]
    simp
  rw [e, splitLines_create]
  simp only [List.countP_append]
  have hp1 : (splitLines latexPrefixCore).countP rowCounted = 0 := by decide
  have hp2 : (splitLines latexPrefixCore).countP (rowFirm 1) = 0 := by decide
  have hp3 : (splitLines latexPrefixCore).countP (rowFirm 2) = 0 := by decide
  have hp4 : (splitLines latexPrefixCore).countP (rowFirm 3) = 0 := by decide
  have hs1 : (splitLines latexSuffixCore).countP rowCounted = 0 := by decide
  have hs2 : (splitLines latexSuffixCore).countP (rowFirm 1) = 0 := by decide
  have hs3 : (splitLines latexSuffixCore).countP (rowFirm 2) = 0 := by decide
  have hs4 : (splitLines latexSuffixCore).countP (rowFirm 3) = 0 := by decide
  rw [hp1, hp2, hp3, hp4, hs1, hs2, hs3, hs4]
  by_cases hnil : reqs = []
  · subst hnil
    have hempty : generate_compliance_comparison respond [] f1 f2 f3 = [] := rfl
    rw [hempty]
    unfold directSummary
    simp only [List.map_nil, List.length_nil, List.count_nil]
    decide
  · have hrows : splitLines (generate_compliance_comparison respond reqs f1 f2 f3) =
        reqs.map (rowOf respond f1 f2 f3) := by
      rw [generate_compliance_comparison_eq,
        (by decide : str "\n" = ([10] : Str))]
      apply splitOnChar_joinWith
      · simpa using hnil
      · intro r hr
        obtain ⟨req, hmem, rfl⟩ := List.mem_map.mp hr
        exact row_no10 respond f1 f2 f3 req (hreq req hmem).2
    rw [hrows]
    have hT : (reqs.map (rowOf respond f1 f2 f3)).countP rowCounted = reqs.length := by
      rw [countP_eq_length_list]
      · exact (List.length_map reqs _)
      · intro row hrow
        obtain ⟨req, hmem, rfl⟩ := List.mem_map.mp hrow
        exact (row_facts respond f1 f2 f3 req (hreq req hmem).1).1
    have hK : ∀ k (fk : Str),
        (∀ req ∈ reqs, rowFirm k (rowOf respond f1 f2 f3 req) =
          (evaluate_compliance (respond req fk) == str "Complied")) →
        (reqs.map (rowOf respond f1 f2 f3)).countP (rowFirm k) =
          (reqs.map (fun r => evaluate_compliance (respond r fk))).count (str "Complied") := by
      intro k fk hpt
      rw [countP_map_list]
      rw [show (reqs.map (fun r => evaluate_compliance (respond r fk))).count (str "Complied") =
        (reqs.map (fun r => evaluate_compliance (respond r fk))).countP
          (fun x => x == str "Complied") from rfl]
      rw [countP_map_list]
      exact countP_congr_list _ _ reqs hpt
    have h1 := hK 1 f1 (fun req hmem =>
      (row_facts respond f1 f2 f3 req (hreq req hmem).1).2.1)
    have h2 := hK 2 f2 (fun req hmem =>
      (row_facts respond f1 f2 f3 req (hreq req hmem).1).2.2.1)
    have h3 := hK 3 f3 (fun req hmem =>
      (row_facts respond f1 f2 f3 req (hreq req hmem).1).2.2.2)
    rw [hT, h1, h2, h3]
    unfold directSummary
    simp

/-! ## Requirement parsing characterizations -/

theorem reqLines_eq : ∀ lines : List Str,
    reqLines lines =
      ((((lines.map strip).filter qualifiesLine).map cleanBullet).filter
        (fun r => !r.isEmpty))
  | [] => rfl
  | l :: rest => by
    simp only [List.map_cons]
    by_cases hq : qualifiesLine (strip l) = true
    · by_cases he : (cleanBullet (strip l)).isEmpty = true
      · simp [reqLines, hq, he, reqLines_eq rest]
      · simp [reqLines, hq, he, reqLines_eq rest]
    · simp [reqLines, hq, reqLines_eq rest]

theorem containsStr_single (c : Nat) : ∀ l : Str, containsStr [c] l = true ↔ c ∈ l
  | [] => by simp [containsStr, beginsWith]
  | x :: t => by
    simp only [containsStr, Bool.or_eq_true, beginsWith, Bool.and_eq_true,
      beq_iff_eq, containsStr_single c t, List.mem_cons]
    constructor
    · rintro (⟨h, _⟩ | h)
      · exact Or.inl h
      · exact Or.inr h
    · rintro (h | h)
      · exact Or.inl ⟨h, trivial⟩
      · exact Or.inr h

theorem splitColon2_no_colon (l : Str) (h : containsStr (str ":") l = false) :
    splitColon2 l = [l] := by
  have h58 : 58 ∉ l := by
    intro hm
    rw [show (str ":") = ([58] : Str) from by decide,
      (containsStr_single 58 l).2 hm] at h
    simp at h
  have hd : l.dropWhile (fun n => n != 58) = [] := by
    rw [List.dropWhile_eq_nil_iff]
    intro x hx
    simp only [bne_iff_ne, ne_eq]
    intro hx58
    exact h58 (hx58 ▸ hx)
  simp [splitColon2, hd]

theorem splitColon2_getD0 (l : Str) (h : 3 ≤ (splitColon2 l).length) :
    (splitColon2 l).getD 0 [] = l.takeWhile (fun n => n != 58) := by
  unfold splitColon2 at h ⊢
  cases hd : l.dropWhile (fun n => n != 58) with
  | nil => simp [hd] at h
  | cons x r1 =>
    cases hd2 : r1.dropWhile (fun n => n != 58) with
    | nil => simp [hd, hd2] at h
    | cons y r2 => simp [hd, hd2]

theorem parseStructuredLine_eq (raw : Str) :
    parseStructuredLine raw =
      (if (containsStr (str ":") (strip raw) &&
          categories.any (fun cat => containsStr cat (upper (strip raw)))) = true then
        (if 3 ≤ (splitColon2 (strip raw)).length then
          some { category := strip ((splitColon2 (strip raw)).getD 0 [])
                 requirement := strip ((splitColon2 (strip raw)).getD 1 [])
                 specification := strip ((splitColon2 (strip raw)).getD 2 [])
                 full_text := strip ((splitColon2 (strip raw)).getD 1 []) ++ str ": " ++
                   strip ((splitColon2 (strip raw)).getD 2 []) }
         else none)
       else none) := rfl

theorem parseStructuredLine_accept (raw : Str)
    (hcat : categories.any (fun cat => containsStr cat (upper (strip raw))) = true)
    (hlen : 3 ≤ (splitColon2 (strip raw)).length) :
    parseStructuredLine raw =
      some { category := strip ((splitColon2 (strip raw)).getD 0 [])
             requirement := strip ((splitColon2 (strip raw)).getD 1 [])
             specification := strip ((splitColon2 (strip raw)).getD 2 [])
             full_text := strip ((splitColon2 (strip raw)).getD 1 []) ++ str ": " ++
               strip ((splitColon2 (strip raw)).getD 2 []) } := by
  have hcolon : containsStr (str ":") (strip raw) = true := by
    cases hc : containsStr (str ":") (strip raw) with
    | true => rfl
    | false =>
      rw [splitColon2_no_colon (strip raw) hc] at hlen
      simp at hlen
  rw [parseStructuredLine_eq, hcolon, hcat]
  simp [hlen]

theorem parseStructuredLine_reject (raw : Str)
    (h : ¬ (categories.any (fun cat => containsStr cat (upper (strip raw))) = true ∧
        3 ≤ (splitColon2 (strip raw)).length)) :
    parseStructuredLine raw = none := by
  rw [parseStructuredLine_eq]
  by_cases hcat : categories.any (fun cat => containsStr cat (upper (strip raw))) = true
  · have hlen : ¬ 3 ≤ (splitColon2 (strip raw)).length := fun hl => h ⟨hcat, hl⟩
    rw [if_neg hlen]
    split <;> rfl
  · have hcond : (containsStr (str ":") (strip raw) &&
        categories.any (fun cat => containsStr cat (upper (strip raw)))) = false := by
      cases hcc : categories.any (fun cat => containsStr cat (upper (strip raw))) with
      | true => exact absurd hcc hcat
      | false => simp [hcc]
    rw [hcond]
    simp

theorem parseStructuredLine_category (raw : Str) (rec : StructuredReq)
    (h : parseStructuredLine raw = some rec) :
    rec.category = strip ((strip raw).takeWhile (fun n => n != 58)) := by
  rw [parseStructuredLine_eq] at h
  split at h
  · split at h
    · rename_i hlen
      have hrec := (Option.some.injEq _ _).mp h
      rw [← hrec]
      show strip ((splitColon2 (strip raw)).getD 0 []) =
        strip ((strip raw).takeWhile (fun n => n != 58))
      rw [splitColon2_getD0 (strip raw) hlen]
    · exact absurd h (by simp)
  · exact absurd h (by simp)

/-! ## Shared auxiliary definitions for the claims -/

/-- Captured backend that always answers the token Complied. -/
def constComplied : Str → Str → Str := fun _ _ => str "Complied"

/-- The requirement extraction as the claim wording states it: the
trimmed non-empty qualifying lines with bullet markers stripped,
without the emptiness filter the code applies after stripping. -/
def spec_requirements_only (t : Str) : List Str :=
  (((splitLines t).map strip).filter qualifiesLine).map cleanBullet

theorem map_congr_own {α β : Type} (f g : α → β) :
    ∀ l : List α, (∀ a ∈ l, f a = g a) → l.map f = l.map g
  | [], _ => rfl
  | x :: t, h => by
    simp only [List.map_cons, h x (List.mem_cons_self x t),
      map_congr_own f g t (fun a ha => h a (List.mem_cons_of_mem x ha))]

theorem sum_map_const_nat {α : Type} (n : Nat) :
    ∀ l : List α, (l.map (fun _ => n)).sum = l.length * n
  | [] => by simp
  | x :: t => by
    simp only [List.map_cons, List.sum_cons, sum_map_const_nat n t,
      List.length_cons]
    rw [Nat.succ_mul]
    omega

/-! ## The claims -/

/-- Claim C1, counterexample: the response Surely Complied is neither
of the expected tokens and carries no STATUS label, yet
evaluate_compliance classifies it Complied, so a malformed response can
yield Complied. -/
theorem C1_counterexample :
    evaluate_compliance (str "Surely Complied") = str "Complied" ∧
    str "Surely Complied" ≠ str "Complied" ∧
    str "Surely Complied" ≠ str "Not Complied" ∧
    containsStr (str "STATUS:") (str "Surely Complied") = false :=
  ⟨by decide, by decide, by decide, by decide⟩

/-- Claim C1 (amended): the classifiers default to Not Complied exactly
relative to the substring rule: evaluate_compliance returns Not
Complied whenever the lower-cased response lacks the substring complied
or carries the substring not; smart_compliance_check returns Not
Complied whenever the response has no STATUS label, and whenever the
extracted STATUS value fails the same rule.  A malformed response whose
text contains complied without not is classified Complied. -/
theorem C1_default_safety_amended (r : Str) :
    (¬ (containsStr (str "complied") (lower r) = true ∧
        containsStr (str "not") (lower r) = false) →
      evaluate_compliance r = str "Not Complied") ∧
    (containsStr (str "STATUS:") r = false →
      (smart_compliance_check r).1 = str "Not Complied") ∧
    (¬ (containsStr (str "complied") (lower (statusOf r)) = true ∧
        containsStr (str "not") (lower (statusOf r)) = false) →
      (smart_compliance_check r).1 = str "Not Complied") := by
  refine ⟨evaluate_compliance_not_complied r, smart_no_label r, ?_⟩
  intro h
  rcases smart_cases r with hc | hn
  · exact absurd ((smart_complied_iff r).mp hc) h
  · exact hn

/-- Claim C2: evaluate_compliance returns Complied exactly when the
lower-cased response contains the substring complied and not the
substring not, returns Not Complied in every other case, and is total;
the STATUS value of smart_compliance_check is standardized by the same
rule. -/
theorem C2_terse_parse (r : Str) :
    (evaluate_compliance r = str "Complied" ↔
      (containsStr (str "complied") (lower r) = true ∧
        containsStr (str "not") (lower r) = false)) ∧
    (evaluate_compliance r = str "Complied" ∨
      evaluate_compliance r = str "Not Complied") ∧
    ((smart_compliance_check r).1 = str "Complied" ↔
      (containsStr (str "complied") (lower (statusOf r)) = true ∧
        containsStr (str "not") (lower (statusOf r)) = false)) :=
  ⟨evaluate_compliance_complied_iff r, evaluate_compliance_cases r,
    smart_complied_iff r⟩

/-- Claim C3, counterexample: a requirement containing a dollar sign is
rendered by generate_compliance_comparison with the dollar raw and
unescaped, while the enhanced renderer escapes it. -/
theorem C3_counterexample :
    containsStr (str "\\$")
      (generate_compliance_comparison constComplied [str "$100"] [] [] []) = false ∧
    36 ∈ generate_compliance_comparison constComplied [str "$100"] [] [] [] ∧
    noRaw 36 (generate_compliance_comparison constComplied [str "$100"] [] [] []) = false ∧
    containsStr (str "\\$")
      (generate_enhanced_comparison_table (str "HARDWARE: Price: $100")
        constComplied [] [] []) = true :=
  ⟨by decide, by decide, by decide, by decide⟩

/-- Claim C3 (amended): the five characters are escaped with their
backslash forms and never left raw by the enhanced renderer escaping
escapeLatex5; the terse renderer escaping escapeLatex4 guarantees this
only for ampersand, percent, underscore and hash, leaving dollar raw;
each renderer applies its escaping to the requirement free-text field
only, with the verdict cells and separators inserted verbatim. -/
theorem C3_escaping_amended (req : Str) (c : Nat) :
    (c ∈ [38, 37, 95, 35, 36] → c ∈ req →
      containsStr [92, c] (escapeLatex5 req) = true ∧
      noRaw c (escapeLatex5 req) = true) ∧
    (c ∈ [38, 37, 95, 35] → c ∈ req →
      containsStr [92, c] (escapeLatex4 req) = true ∧
      noRaw c (escapeLatex4 req) = true) ∧
    (∀ v1 v2 v3 : Str, latexRow req v1 v2 v3 =
      escapeLatex4 req ++ str " & " ++ v1 ++ str " & " ++ v2 ++ str " & " ++ v3 ++
        str " \\\\") ∧
    (∀ (respond : Str → Str → Str) (f1 f2 f3 : Str) (rq : StructuredReq),
      enhancedRow respond f1 f2 f3 rq =
        escapeLatex5 rq.full_text ++ str " & " ++
          statusCell (smart_compliance_check (respond rq.full_text f1)).1 ++
          str " & " ++
          statusCell (smart_compliance_check (respond rq.full_text f2)).1 ++
          str " & " ++
          statusCell (smart_compliance_check (respond rq.full_text f3)).1 ++
          str " \\\\") := by
  refine ⟨?_, ?_, fun v1 v2 v3 => rfl, fun respond f1 f2 f3 rq => rfl⟩
  · intro hc hm
    have hd : c = 38 ∨ c = 37 ∨ c = 95 ∨ c = 35 ∨ c = 36 := by simpa using hc
    refine ⟨?_, noRaw_escapeLatex5 c hd req⟩
    rw [escapeLatex5_eq_escMap]
    exact escaped_present_escMap5 c hd req hm
  · intro hc hm
    have hd : c = 38 ∨ c = 37 ∨ c = 95 ∨ c = 35 := by simpa using hc
    refine ⟨?_, noRaw_escapeLatex4 c hd req⟩
    rw [escapeLatex4_eq_escMap]
    exact escaped_present_escMap4 c hd req hm

/-- Claim C4: the rendered report is a deterministic function of the
requirement list and the verdict matrix alone: whenever two runs agree
on the requirements and on every verdict computed from the captured
responses, create_compliance_table_latex produces byte-identical
output; moreover the output is exactly the fixed template with the
data table embedded verbatim between its two halves, so no timestamp
or other hidden content enters the report. -/
theorem C4_render_deterministic
    (respond respond2 : Str → Str → Str) (reqs reqs2 : List Str)
    (f1 f2 f3 g1 g2 g3 : Str) :
    (reqs = reqs2 →
      (∀ req ∈ reqs,
        evaluate_compliance (respond req f1) = evaluate_compliance (respond2 req g1) ∧
        evaluate_compliance (respond req f2) = evaluate_compliance (respond2 req g2) ∧
        evaluate_compliance (respond req f3) = evaluate_compliance (respond2 req g3)) →
      create_compliance_table_latex respond reqs f1 f2 f3 =
        create_compliance_table_latex respond2 reqs2 g1 g2 g3) ∧
    create_compliance_table_latex respond reqs f1 f2 f3 =
      latexPrefix ++ generate_compliance_comparison respond reqs f1 f2 f3 ++
        latexSuffix := by
  constructor
  · intro hreq hv
    subst hreq
    unfold create_compliance_table_latex
    congr 1
    congr 1
    rw [generate_compliance_comparison_eq, generate_compliance_comparison_eq]
    congr 1
    apply map_congr_own
    intro req hmem
    unfold rowOf latexRow
    rw [(hv req hmem).1, (hv req hmem).2.1, (hv req hmem).2.2]
  · rfl

/-- Claim C5, counterexample: the line - CPU: Intel i7 is a non-empty
qualifying line (it contains a colon) without a category token;
extract_structured_requirements drops it entirely instead of keeping it
as a plain requirement. -/
theorem C5_counterexample :
    extract_structured_requirements (str "- CPU: Intel i7") = [] ∧
    strip (str "- CPU: Intel i7") = str "- CPU: Intel i7" ∧
    containsStr (str ":") (str "- CPU: Intel i7") = true :=
  ⟨by decide, by decide, by decide⟩

/-- Claim C5 (amended): in category-aware parsing, a stripped line
yields a categorized requirement exactly when one of the nine category
tokens occurs in its upper-casing and the colon split with at most two
splits has at least three parts, with the parts mapped to category,
requirement and specification and full_text joining the last two with
a colon; every line not meeting these criteria is dropped, not kept as
a plain requirement. -/
theorem C5_structured_parse_amended (raw : Str) :
    ((categories.any (fun cat => containsStr cat (upper (strip raw))) = true ∧
        3 ≤ (splitColon2 (strip raw)).length) →
      parseStructuredLine raw =
        some { category := strip ((splitColon2 (strip raw)).getD 0 [])
               requirement := strip ((splitColon2 (strip raw)).getD 1 [])
               specification := strip ((splitColon2 (strip raw)).getD 2 [])
               full_text := strip ((splitColon2 (strip raw)).getD 1 []) ++
                 str ": " ++ strip ((splitColon2 (strip raw)).getD 2 []) }) ∧
    (¬ (categories.any (fun cat => containsStr cat (upper (strip raw))) = true ∧
        3 ≤ (splitColon2 (strip raw)).length) →
      parseStructuredLine raw = none) ∧
    (∀ content : Str, extract_structured_requirements content =
      (splitLines content).filterMap parseStructuredLine) :=
  ⟨fun h => parseStructuredLine_accept raw h.1 h.2,
    fun h => parseStructuredLine_reject raw h, fun _ => rfl⟩

/-- Claim C6, counterexample: the line consisting of a single hyphen is
a qualifying line, so by the claim it should be returned with its
bullet marker stripped (as the empty requirement); the code filters it
out, so the output differs from the claim wording. -/
theorem C6_counterexample :
    extract_requirements_only (str "-") = [] ∧
    spec_requirements_only (str "-") = [str ""] ∧
    qualifiesLine (strip (str "-")) = true :=
  ⟨by decide, by decide, by decide⟩

/-- Claim C6 (amended): extract_requirements_only returns, in input
line order, the trimmed qualifying lines with leading bullet markers
stripped, except that entries left empty by the stripping are dropped;
when no line qualifies the result is the empty list. -/
theorem C6_requirement_lines_amended (t : Str) :
    extract_requirements_only t =
      (spec_requirements_only t).filter (fun r => !r.isEmpty) := by
  unfold extract_requirements_only spec_requirements_only
  exact reqLines_eq (splitLines t)

/-- Claim C7: when the concatenated text layer is non-whitespace,
extract_text returns it at once and the result does not depend on the
OCR backend at all; and the result is empty exactly when the text
layer and the OCR output are both empty, returned as a value. -/
theorem C7_extract_text (pages : List (Option Str)) (ocr_pages : List Str) :
    (strip (textLayer pages) ≠ [] →
      extract_text pages ocr_pages = textLayer pages ∧
      ∀ ocr2 : List Str, extract_text pages ocr_pages = extract_text pages ocr2) ∧
    (extract_text pages ocr_pages = [] ↔
      (textLayer pages = [] ∧ concatAll ocr_pages = [])) := by
  constructor
  · intro hne
    have h1 : extract_text pages ocr_pages = textLayer pages := by
      rw [extract_text_eq, if_pos hne]
    refine ⟨h1, fun ocr2 => ?_⟩
    rw [h1, extract_text_eq, if_pos hne]
  · rw [extract_text_eq]
    split
    · rename_i hne
      constructor
      · intro h
        rw [h] at hne
        exact absurd rfl hne
      · rintro ⟨h1, _⟩
        rw [h1] at hne
        exact absurd rfl hne
    · exact List.append_eq_nil

/-- Claim C8: the compliance loop of the analysis handler produces one
column per uploaded proposal in upload order, each column holding one
verdict per requirement in requirement order, for a total of exactly
the number of proposals times the number of requirements cells, and the
cell at column i and row j is the verdict of requirement j against
proposal i. -/
theorem C8_matrix_shape (respond : Str → Str → Str) (reqs fts : List Str) :
    (build_matrix respond reqs fts).length = fts.length ∧
    (∀ col ∈ build_matrix respond reqs fts, col.length = reqs.length) ∧
    ((build_matrix respond reqs fts).map List.length).sum =
      fts.length * reqs.length ∧
    (∀ (i j : Nat) (ft req : Str), fts[i]? = some ft → reqs[j]? = some req →
      ∃ col : List Str, (build_matrix respond reqs fts)[i]? = some col ∧
        col[j]? = some (evaluate_compliance (respond req ft))) := by
  refine ⟨by simp [build_matrix], ?_, ?_, ?_⟩
  · intro col hcol
    obtain ⟨ft, _, rfl⟩ := List.mem_map.mp hcol
    simp
  · have h : (build_matrix respond reqs fts).map List.length =
        fts.map (fun _ => reqs.length) := by
      unfold build_matrix
      rw [List.map_map]
      apply map_congr_own
      intro ft _
      simp
    rw [h, sum_map_const_nat]
  · intro i j ft req hi hj
    refine ⟨reqs.map (fun r => evaluate_compliance (respond r ft)), ?_, ?_⟩
    · unfold build_matrix
      rw [getElem?_map_list, hi]
      rfl
    · rw [getElem?_map_list, hj]
      rfl

/-- Claim C9, counterexample: with the single requirement A & B and a
backend answering Complied everywhere, the verdict column counts one
Complied, but calculate_compliance_summary recomputed from the rendered
report counts zero for firm one, because the ampersand inside the
escaped requirement shifts the column split. -/
theorem C9_counterexample :
    (calculate_compliance_summary (create_compliance_table_latex constComplied
      [str "A & B"] [] [] [])).firm1_complied = 0 ∧
    (directSummary constComplied [str "A & B"] [] [] []).firm1_complied = 1 ∧
    (calculate_compliance_summary (create_compliance_table_latex constComplied
      [str "A & B"] [] [] [])).total_requirements = 1 :=
  ⟨by decide, by decide, by decide⟩

/-- Claim C9 (amended): for every run whose requirement strings contain
neither an ampersand nor a newline, the summary statistics recomputed
from the rendered report by calculate_compliance_summary equal the
statistics computed directly from the verdicts: total equals the number
of requirements and, per firm, count and percentage of Complied
verdicts agree; a requirement containing an ampersand breaks the
agreement. -/
theorem C9_summary_amended (respond : Str → Str → Str) (reqs : List Str)
    (f1 f2 f3 : Str) (hreq : ∀ r ∈ reqs, 38 ∉ r ∧ 10 ∉ r) :
    calculate_compliance_summary
        (create_compliance_table_latex respond reqs f1 f2 f3) =
      directSummary respond reqs f1 f2 f3 :=
  summary_of_create respond reqs f1 f2 f3 hreq

/-- Claim C9, witness: the amended equality evaluated on a concrete
two-requirement run. -/
theorem C9_summary_witness :
    calculate_compliance_summary (create_compliance_table_latex constComplied
        [str "CPU: i7", str "RAM: 16GB"] [] [] []) =
      directSummary constComplied [str "CPU: i7", str "RAM: 16GB"] [] [] [] :=
  C9_summary_amended constComplied [str "CPU: i7", str "RAM: 16GB"] [] [] []
    (by decide)

/-- Claim C10: for every line accepted by the structured parser, the
category field is the trimmed text before the first colon of the
stripped line, bullets and casing preserved; the example line
- HARDWARE: CPU: i7 is accepted with category - HARDWARE, which is not
one of the nine category tokens. -/
theorem C10_category_prefix :
    (∀ (raw : Str) (rec : StructuredReq), parseStructuredLine raw = some rec →
      rec.category = strip ((strip raw).takeWhile (fun n => n != 58))) ∧
    parseStructuredLine (str "- HARDWARE: CPU: i7") =
      some { category := str "- HARDWARE", requirement := str "CPU",
             specification := str "i7", full_text := str "CPU: i7" } ∧
    str "- HARDWARE" ∉ categories :=
  ⟨fun raw rec h => parseStructuredLine_category raw rec h, by decide, by decide⟩

end Tender
